import Mathlib

/-!
# Verification of the `push` streaming reference-extraction engine

This file gives a shallow embedding of the core of the `push` package
(HTML/CSS/SVG token scanning, URL resolution and scope filtering, the
srcset candidate parser, the delivery coordinator's setup checks, the
push loop, and the streaming pipeline's completion behaviour) and proves
or refutes the specification claims about it.

Conventions of the embedding:
* Go byte strings are modelled as `List Char`; all inputs of interest are
  ASCII, where byte indexing and char indexing coincide.  `String` is used
  at the statement surface and converted via `String.data` / `String.mk`.
* The external tokenizers (`github.com/tdewolff/parse/{html,css,xml}`) are
  not re-implemented; scanners operate on abstract token streams and the
  places where the code re-lexes a byte string (inline `style` attributes,
  `<style>` bodies, `<iframe>` bodies, embedded SVG) are parameterized by
  lexer oracles `lexHTML`, `lexCSS`, `lexSVG`.
* `net/url` is modelled by `GoURL`/`urlParse`/`resolveReference` on the
  scheme/host/path fragment actually exercised by the package (no user
  info, query, fragment, opaque part or percent escapes); `resolvePath`
  follows Go's `net/url.resolvePath` dot-segment algorithm.
* Fallible operations return `Option`/pair-with-`Option` results; the
  concurrency of the pipeline is modelled by an explicit step relation.
-/

namespace Push

/-! ## Byte/whitespace helpers (github.com/tdewolff/parse) -/

/-- `parse.IsWhitespace`: space, tab, newline, carriage return or form feed. -/
def isWS (c : Char) : Bool :=
  c = ' ' || c = '\t' || c = '\n' || c = '\r' || c = '\x0c'

/-- Drop whitespace from the end of a char list (right half of `parse.TrimWhitespace`). -/
def rtrimWS (l : List Char) : List Char :=
  (l.reverse.dropWhile isWS).reverse

/-- `parse.TrimWhitespace`: strip leading and trailing whitespace. -/
def trimWS (l : List Char) : List Char :=
  rtrimWS (l.dropWhile isWS)

/-- Worker for `collapseWS`; the flag records whether we are inside a
whitespace run whose single replacement space was already emitted. -/
def collapseWSAux : Bool → List Char → List Char
  | _, [] => []
  | inRun, c :: rest =>
    if isWS c then
      if inRun then collapseWSAux true rest
      else ' ' :: collapseWSAux true rest
    else c :: collapseWSAux false rest

/-- `parse.ReplaceMultipleWhitespace`: collapse every whitespace run into one space. -/
def collapseWS (l : List Char) : List Char := collapseWSAux false l

/-- `strings.HasPrefix s pre` on the char-list representation. -/
def strHasPre (s pre : String) : Bool := pre.data.isPrefixOf s.data

/-- Split a char list on a separator character; empty fields are kept,
the empty list yields one empty field. -/
def splitOnChar (sep : Char) : List Char → List (List Char)
  | [] => [[]]
  | c :: rest =>
    if c = sep then [] :: splitOnChar sep rest
    else
      match splitOnChar sep rest with
      | g :: gs => (c :: g) :: gs
      | [] => [[c]]

/-- Join char-list fields with a separator character. -/
def joinChar (sep : Char) : List (List Char) → List Char
  | [] => []
  | [x] => x
  | x :: xs => x ++ sep :: joinChar sep xs

/-! ## `net/url` model

`GoURL` models the scheme/host/path fragment of `url.URL`.  `urlParse`
models `url.Parse` on references of the shapes `scheme://host/path`,
`//host/path` and `path` (the shapes the package feeds it); it fails, as
Go does, when the string contains an ASCII control character. -/

structure GoURL where
  scheme : String
  host : String
  path : String
deriving DecidableEq, Repr

def isCtl (c : Char) : Bool := c.toNat < 0x20 || c.toNat = 0x7f

/-- Split `host/rest-of-path` after an authority marker `//`. -/
def splitHostPath (l : List Char) : String × String :=
  (String.mk (l.takeWhile (fun c => c ≠ '/')), String.mk (l.dropWhile (fun c => c ≠ '/')))

/-- Model of `url.Parse` (restricted, see module header). -/
def urlParse (raw : String) : Option GoURL :=
  if raw.data.any isCtl then none
  else
    match raw.data with
    | '/' :: '/' :: rest =>
      let (h, p) := splitHostPath rest
      some ⟨"", h, p⟩
    | l =>
      match findSchemeSplit l with
      | some (sch, rest) =>
        let (h, p) := splitHostPath rest
        some ⟨String.mk sch, h, p⟩
      | none => some ⟨"", "", String.mk l⟩
where
  /-- Find `sch := "` of a leading `sch://`, returning the scheme chars and
  what follows the `://`. -/
  findSchemeSplit : List Char → Option (List Char × List Char)
    | [] => none
    | ':' :: '/' :: '/' :: rest => some ([], rest)
    | ':' :: _ => none
    | '/' :: _ => none
    | c :: rest =>
      match findSchemeSplit rest with
      | some (sch, r) => some (c :: sch, r)
      | none => none

/-! ### `net/url.resolvePath` -/

/-- Process the `/`-separated segments the way Go's `resolvePath` loop does:
`.` is dropped, `..` pops, everything else (including empty segments) is kept. -/
def remDotSegs (acc : List (List Char)) : List (List Char) → List (List Char)
  | [] => acc
  | s :: rest =>
    if s = ['.'] then remDotSegs acc rest
    else if s = ['.', '.'] then remDotSegs acc.dropLast rest
    else remDotSegs (acc ++ [s]) rest

/-- Model of Go's `net/url.resolvePath base ref`: relative `ref`s are joined
against the directory of `base`, dot segments are removed, and the result is
always absolute; a trailing `.` or `..` leaves a trailing slash. -/
def resolvePath (base ref : String) : String :=
  let full : List Char :=
    if ref = "" then base.data
    else if ref.data.head? ≠ some '/' then
      (dirOf base.data) ++ ref.data
    else ref.data
  if full = [] then ""
  else
    let segs0 := splitOnChar '/' full
    let segs := if full.head? = some '/' then segs0.drop 1 else segs0
    let kept := remDotSegs [] segs
    let trail : List Char :=
      if segs.getLast? = some ['.'] ∨ segs.getLast? = some ['.', '.'] then ['/'] else []
    String.mk ('/' :: joinChar '/' kept ++ trail)
where
  /-- `base[:LastIndex(base, "/")+1]` — the directory part, up to and
  including the last slash (empty when there is no slash). -/
  dirOf (l : List Char) : List Char :=
    (rdropNonSlash l.reverse).reverse
  rdropNonSlash : List Char → List Char
    | [] => []
    | c :: rest => if c = '/' then c :: rest else rdropNonSlash rest

/-- Model of `(*url.URL).ResolveReference` on the `GoURL` fragment: a reference
with its own scheme or host replaces the base (normalizing its path); otherwise
host is kept and the paths are merged via `resolvePath`. -/
def resolveReference (base ref : GoURL) : GoURL :=
  if ref.scheme ≠ "" ∨ ref.host ≠ "" then
    { scheme := if ref.scheme = "" then base.scheme else ref.scheme
      host := ref.host
      path := resolvePath ref.path "" }
  else
    { scheme := base.scheme
      host := base.host
      path := resolvePath base.path ref.path }

/-! ## The URL resolver and scope filter (`src/parse.go:298-319`) -/

/-- `src/parse.go:303-306` (and `:107-110`): a path beginning with `localhost`
or `127.0.0.1` is unpacked into host (first 9 bytes) and path (the rest). -/
def localhostFix (u : GoURL) : GoURL :=
  if strHasPre u.path "localhost" ∨ strHasPre u.path "127.0.0.1" then
    { u with host := String.mk (u.path.data.take 9), path := String.mk (u.path.data.drop 9) }
  else u

/-- Outcome of one resolver call: `none` = URL parse error (propagated),
`some none` = rejected (not local; no error, no sink call),
`some (some uri)` = accepted, `uri` is passed to the sink. -/
def parseURLres (baseURI : String) (reqURL : GoURL) (rawRefURL : String) :
    Option (Option String) :=
  match urlParse rawRefURL with
  | none => none
  | some refURL0 =>
    let refURL := localhostFix refURL0
    if refURL.host ≠ "" ∧ refURL.host ≠ reqURL.host then some none
    else
      let resolvedURI := resolveReference reqURL refURL
      if strHasPre resolvedURI.path baseURI then some (some resolvedURI.path)
      else some none

/-! ## The srcset candidate parser (`src/parse.go:188-218`) -/

/-- `src/parse.go:201-218` `parseSrcsetCandidate`: the first loop walks to the
first non-whitespace byte (`start`), the second takes bytes until the next
whitespace (`end`); the returned slice `b[start:end]` is the leading
non-whitespace run after the leading whitespace. (In the all-whitespace
corner the code leaves `start = 0` and finds `end = 0`, returning the empty
slice, which this translation also yields.) -/
def parseSrcsetCandidate : List Char → List Char
  | [] => []
  | c :: rest =>
    if isWS c then parseSrcsetCandidate rest
    else (c :: rest).takeWhile (fun ch => ¬ isWS ch)

/-- `src/parse.go:188-199` `parseSrcset`: the loop appends one candidate per
comma-separated field (empty fields included), i.e. a split on commas. -/
def parseSrcset (b : List Char) : List String :=
  (splitOnChar ',' b).map (fun c => String.mk (parseSrcsetCandidate c))

/-- The reference definition of claim C8, written from the spec's words:
split the string on commas; for each candidate trim leading and trailing
whitespace and take the leading whitespace-delimited token. -/
def refSrcset (b : List Char) : List String :=
  (splitOnChar ',' b).map (fun c => String.mk ((trimWS c).takeWhile (fun ch => ¬ isWS ch)))

/-! ## The CSS declaration scanner (`src/parse.go:221-247`) -/

/-- One value token inside a CSS declaration, as delivered by
`css.Parser.Values()`; only `URLToken`s matter to the scanner, everything
else is opaque. `data` is the full token text including `url(` and `)`. -/
inductive CSSVal where
  | urlTok (data : String)
  | otherTok
deriving DecidableEq, Repr

/-- One grammar item of the CSS parser: a declaration with its value tokens,
or anything else (at-rules, rulesets, ...), which the scanner ignores.
The model stream carries no error item: on an in-memory buffer the CSS
parser of the vendored `parse/css` ends in a clean `io.EOF`. -/
inductive CSSItem where
  | declItem (vals : List CSSVal)
  | otherItem
deriving DecidableEq, Repr

/-- `src/parse.go:233-237`: extract and quote-strip the value of a `url(...)`
token of byte length `> 5`: the slice `data[4:len-1]`, with first and last
character dropped again when it is longer than 2 and starts with a quote. -/
def cssURLVal (data : List Char) : List Char :=
  let u0 := (data.drop 4).dropLast
  if u0.length > 2 ∧ (u0.head? = some '"' ∨ u0.head? = some '\'') then
    (u0.drop 1).dropLast
  else u0

/-- The raw strings `parseCSS` (`src/parse.go:221-247`) passes to `parseURL`,
in order: for every `URLToken` of a declaration with `len(Data) > 5`, the
quote-stripped value unless it starts with `data:`. -/
def cssResolverCalls (items : List CSSItem) : List String :=
  items.flatMap fun it =>
    match it with
    | .otherItem => []
    | .declItem vals =>
      vals.flatMap fun v =>
        match v with
        | .otherTok => []
        | .urlTok data =>
          if data.data.length > 5 then
            let u := cssURLVal data.data
            if strHasPre (String.mk u) "data:" then [] else [String.mk u]
          else []

/-- The `url(...)` tokens appearing inside declarations, in document order. -/
def urlTokensOf (items : List CSSItem) : List String :=
  items.flatMap fun it =>
    match it with
    | .otherItem => []
    | .declItem vals =>
      vals.filterMap fun v =>
        match v with
        | .otherTok => none
        | .urlTok data => some data

/-- Strip one matching pair of surrounding single or double quotes
(the claim's notion of "optional surrounding quotes"). -/
def stripSurroundingQuotes (l : List Char) : List Char :=
  if l.length ≥ 2 ∧ ((l.head? = some '"' ∧ l.getLast? = some '"') ∨
      (l.head? = some '\'' ∧ l.getLast? = some '\'')) then
    (l.drop 1).dropLast
  else l

/-- The resolver calls claim C9 describes, written from the claim's words:
every `url(...)` token's value, quotes stripped, unless `data:`-prefixed —
with no empty-content exception. -/
def claimCSSCalls (items : List CSSItem) : List String :=
  (urlTokensOf items).filterMap fun data =>
    let u := stripSurroundingQuotes ((data.data.drop 4).dropLast)
    if strHasPre (String.mk u) "data:" then none else some (String.mk u)

/-- The amended description of the CSS resolver calls (claim C9 corrected):
a `url(...)` token is considered only when its parenthesized content is
nonempty (byte length of the whole token `> 5`); its value — first and last
character dropped when longer than two characters and starting with a
quote — is passed unless it starts with `data:`. -/
def refCSSCalls (items : List CSSItem) : List String :=
  (urlTokensOf items).filterMap fun data =>
    if data.data.length > 5 then
      let u := cssURLVal data.data
      if strHasPre (String.mk u) "data:" then none else some (String.mk u)
    else none

/-- Feed a list of raw reference strings through `parseURLres` in order,
collecting the accepted URIs (the sink invocations); a URL parse error aborts
(`src/parse.go:239-241`, `:156-164`), keeping the URIs already emitted. -/
def resolveEmitList (baseURI : String) (reqURL : GoURL) : List String → List String × Bool
  | [] => ([], true)
  | raw :: rest =>
    match parseURLres baseURI reqURL raw with
    | none => ([], false)
    | some none => resolveEmitList baseURI reqURL rest
    | some (some u) =>
      let (us, ok) := resolveEmitList baseURI reqURL rest
      (u :: us, ok)

/-- `src/parse.go:221-247` `parseCSS` over an abstract grammar-item stream:
emitted sink URIs plus success flag. -/
def scanCSS (baseURI : String) (reqURL : GoURL) (items : List CSSItem) :
    List String × Bool :=
  resolveEmitList baseURI reqURL (cssResolverCalls items)

/-! ## Token models for the HTML and SVG lexers -/

/-- Tokens of the XML lexer as consumed by `parseSVG` (`src/parse.go:250-296`).
`attrTok`'s `val` is the raw `AttrVal()`, quotes included. -/
inductive SToken where
  | startTag (name : String)
  | attrTok (key val : String)
  | startTagClose
  | endTag (name : String)
  | textTok (data : String)
  | errTok (isEOF : Bool)
deriving DecidableEq, Repr

/-- Tokens of the HTML lexer as consumed by `parseHTML` (`src/parse.go:124-186`).
An embedded `<svg>` fragment arrives as one `svgTok` carrying its bytes. -/
inductive HToken where
  | startTag (name : String)
  | attrTok (key val : String)
  | startTagClose
  | endTag (name : String)
  | textTok (data : String)
  | svgTok (data : String)
  | errTok (isEOF : Bool)
deriving DecidableEq, Repr

/-- `src/parse.go:146-148`: when an attribute value is longer than one byte
and starts with a quote character, its first and last byte are dropped and
the rest is whitespace-trimmed. -/
def stripAttrVal (s : String) : String :=
  let l := s.data
  if l.length > 1 ∧ (l.head? = some '"' ∨ l.head? = some '\'') then
    String.mk (trimWS ((l.drop 1).dropLast))
  else s

/-- `src/parse.go:272-274`: the SVG variant additionally collapses whitespace
runs (`parse.ReplaceMultipleWhitespace`). -/
def stripSVGAttrVal (s : String) : String :=
  let l := s.data
  if l.length > 1 ∧ (l.head? = some '"' ∨ l.head? = some '\'') then
    String.mk (collapseWS (trimWS ((l.drop 1).dropLast)))
  else s

/-- Sequence two scan results: on failure of the first, stop (keeping its
emissions); otherwise append. -/
def comb (a b : List String × Bool) : List String × Bool :=
  match a with
  | (us, false) => (us, false)
  | (us, true) => (us ++ b.1, b.2)

/-- The SVG tags whose `href`/`xlink:href` are scanned (`src/parse.go:270`). -/
def svgURLTags : List String := ["image", "script", "feImage", "color-profile", "use"]

/-- `src/parse.go:250-296` `parseSVG` over the abstract token stream.
State: the current tag (updated only at start tags, like the code's `tag`
variable) and whether we are inside the attribute loop (whose first
non-attribute token is consumed without processing, mirroring the inner
`for`/`break` of the code). Returns the sink URIs in order and a success
flag (`false` = lexer error, CSS error or URL parse error). -/
def scanSVG (lexCSS : Bool → String → List CSSItem) (baseURI : String) (reqURL : GoURL) :
    String → Bool → List SToken → List String × Bool
  | _, _, [] => ([], true)
  | tag, true, tok :: rest =>
    match tok with
    | .attrTok key val =>
      let step : List String × Bool :=
        if key = "style" ∨ (tag ∈ svgURLTags ∧ (key = "href" ∨ key = "xlink:href")) then
          if key = "style" then scanCSS baseURI reqURL (lexCSS true (stripSVGAttrVal val))
          else
            match parseURLres baseURI reqURL (stripSVGAttrVal val) with
            | none => ([], false)
            | some none => ([], true)
            | some (some u) => ([u], true)
        else ([], true)
      comb step (scanSVG lexCSS baseURI reqURL tag true rest)
    | .errTok isEOF => ([], isEOF)
    | _ => scanSVG lexCSS baseURI reqURL tag false rest
  | tag, false, tok :: rest =>
    match tok with
    | .startTag n => scanSVG lexCSS baseURI reqURL n true rest
    | .textTok d =>
      if tag = "style" then
        comb (scanCSS baseURI reqURL (lexCSS false d)) (scanSVG lexCSS baseURI reqURL tag false rest)
      else scanSVG lexCSS baseURI reqURL tag false rest
    | .errTok isEOF => ([], isEOF)
    | _ => scanSVG lexCSS baseURI reqURL tag false rest

/-- One fuel layer of `src/parse.go:124-186` `parseHTML` over the abstract
token stream; `nested` re-enters the parser on an `<iframe>` body.
Same state discipline as `scanSVG`. -/
def scanHTMLAux (lexCSS : Bool → String → List CSSItem) (lexSVG : String → List SToken)
    (baseURI : String) (reqURL : GoURL) (nested : String → List String × Bool) :
    String → Bool → List HToken → List String × Bool
  | _, _, [] => ([], true)
  | tag, true, tok :: rest =>
    match tok with
    | .attrTok key val =>
      let step : List String × Bool :=
        if key = "style" ∨ key = "src" ∨ key = "srcset" ∨ key = "poster" ∨ key = "data" ∨
            (key = "href" ∧ tag = "link") then
          if key = "style" then scanCSS baseURI reqURL (lexCSS true (stripAttrVal val))
          else if key = "srcset" then
            resolveEmitList baseURI reqURL (parseSrcset (stripAttrVal val).data)
          else
            match parseURLres baseURI reqURL (stripAttrVal val) with
            | none => ([], false)
            | some none => ([], true)
            | some (some u) => ([u], true)
        else ([], true)
      comb step (scanHTMLAux lexCSS lexSVG baseURI reqURL nested tag true rest)
    | .errTok isEOF => ([], isEOF)
    | _ => scanHTMLAux lexCSS lexSVG baseURI reqURL nested tag false rest
  | tag, false, tok :: rest =>
    match tok with
    | .startTag n => scanHTMLAux lexCSS lexSVG baseURI reqURL nested n true rest
    | .svgTok d =>
      comb (scanSVG lexCSS baseURI reqURL "" false (lexSVG d))
        (scanHTMLAux lexCSS lexSVG baseURI reqURL nested tag false rest)
    | .textTok d =>
      if tag = "style" then
        comb (scanCSS baseURI reqURL (lexCSS false d))
          (scanHTMLAux lexCSS lexSVG baseURI reqURL nested tag false rest)
      else if tag = "iframe" then
        comb (nested d) (scanHTMLAux lexCSS lexSVG baseURI reqURL nested tag false rest)
      else scanHTMLAux lexCSS lexSVG baseURI reqURL nested tag false rest
    | .errTok isEOF => ([], isEOF)
    | _ => scanHTMLAux lexCSS lexSVG baseURI reqURL nested tag false rest

/-- `parseHTML` with a fuel bound on `<iframe>` nesting depth (the code has
no such bound; every theorem holds for every sufficient fuel). -/
def scanHTML (lexHTML : String → List HToken) (lexCSS : Bool → String → List CSSItem)
    (lexSVG : String → List SToken) (baseURI : String) (reqURL : GoURL) :
    Nat → String → Bool → List HToken → List String × Bool
  | 0, _, _, _ => ([], false)
  | fuel + 1, tag, m, toks =>
    scanHTMLAux lexCSS lexSVG baseURI reqURL
      (fun d => scanHTML lexHTML lexCSS lexSVG baseURI reqURL fuel "" false (lexHTML d))
      tag m toks

/-- Scan one whole HTML document (fresh tag state, as `parseHTML` starts). -/
def scanHTMLDoc (lexHTML : String → List HToken) (lexCSS : Bool → String → List CSSItem)
    (lexSVG : String → List SToken) (baseURI : String) (reqURL : GoURL)
    (fuel : Nat) (toks : List HToken) : List String × Bool :=
  scanHTML lexHTML lexCSS lexSVG baseURI reqURL fuel "" false toks

/-! ## Spec-side description of the HTML scan (for claim C1) -/

/-- Associate every attribute token with the most recent start tag: the
URL-bearing constructs "tag's attribute" present in the document. -/
def attrsOf : String → List HToken → List (String × String × String)
  | _, [] => []
  | _, .startTag n :: rest => attrsOf n rest
  | tag, .attrTok k v :: rest => (tag, k, v) :: attrsOf tag rest
  | tag, _ :: rest => attrsOf tag rest

/-- The tag/attribute table of spec §4.1 as claim C1 states it:
`link[href]`; `src` on the eight listed tags; `img[srcset]`;
`object[data]`; any element's `style`. -/
def tableClaim (tag attr : String) : Bool :=
  (attr == "href" && tag == "link") ||
  (attr == "src" && (tag == "script" || tag == "img" || tag == "source" || tag == "audio" ||
    tag == "video" || tag == "track" || tag == "embed" || tag == "input")) ||
  (attr == "srcset" && tag == "img") ||
  (attr == "data" && tag == "object") ||
  attr == "style"

/-- The amended table (what `src/parse.go:144` actually recognizes):
`style`, `src`, `srcset`, `poster` and `data` on every element, and
`href` on `link` only. -/
def tableAmended (tag attr : String) : Bool :=
  attr == "style" || attr == "src" || attr == "srcset" || attr == "poster" ||
  attr == "data" || (attr == "href" && tag == "link")

/-- The accepted URI of one raw reference, when the resolver accepts it. -/
def acceptOf (baseURI : String) (reqURL : GoURL) (raw : String) : Option String :=
  match parseURLres baseURI reqURL raw with
  | some (some u) => some u
  | _ => none

/-- The locally-scoped targets of one construct "attribute `key` with raw
value `val` on element `tag`", when `table` selects it: `style` values are
scanned as inline CSS, `srcset` values split into candidates, everything
else resolved directly. -/
def specOneRef (lexCSS : Bool → String → List CSSItem) (table : String → String → Bool)
    (baseURI : String) (reqURL : GoURL) (trip : String × String × String) : List String :=
  if table trip.1 trip.2.1 then
    if trip.2.1 = "style" then (scanCSS baseURI reqURL (lexCSS true (stripAttrVal trip.2.2))).1
    else if trip.2.1 = "srcset" then
      (parseSrcset (stripAttrVal trip.2.2).data).filterMap (acceptOf baseURI reqURL)
    else (acceptOf baseURI reqURL (stripAttrVal trip.2.2)).toList
  else []

/-- Spec-side reference scan: the locally-scoped targets, in document order,
of every construct selected by `table`. -/
def specHTMLRefs (lexCSS : Bool → String → List CSSItem) (table : String → String → Bool)
    (baseURI : String) (reqURL : GoURL) (toks : List HToken) : List String :=
  (attrsOf "" toks).flatMap (specOneRef lexCSS table baseURI reqURL)

/-- Streams on which the token-association of `attrsOf` and the scanner's
attribute loop agree: attribute tokens only directly after their start tag,
each attribute run closed by `startTagClose`, no text/svg content, and an
error token only as a final clean EOF. -/
def wfHTML : Bool → List HToken → Bool
  | false, [] => true
  | true, [] => true
  | false, .startTag _ :: r => wfHTML true r
  | true, .attrTok _ _ :: r => wfHTML true r
  | true, .startTagClose :: r => wfHTML false r
  | false, .endTag _ :: r => wfHTML false r
  | _, .errTok true :: r => r.isEmpty
  | _, _ => false

/-! ## The recursive resource walker (`src/parse.go:66-99`, `:609-647`) -/

/-- The scan configuration (`Lookup`, `src/parse.go:364-368`): serving host,
base scope prefix, and the optional resource opener (`nil` disables
recursion). The opener returns the opened resource's content and mimetype. -/
structure LookupM where
  host : String
  baseURI : String
  opener : Option (String → Option (String × String))

/-- `(*Parser).Parse` (`src/parse.go:420-430` and `:102-121`): dispatch on
mimetype; an unsupported mimetype is `ErrNoParser` (scan failure, no URIs). -/
def parseDoc (lexHTML : String → List HToken) (lexCSS : Bool → String → List CSSItem)
    (lexSVG : String → List SToken) (baseURI : String) (reqURL : GoURL)
    (fuel : Nat) (content mimetype : String) : List String × Bool :=
  if mimetype = "text/html" then
    scanHTMLDoc lexHTML lexCSS lexSVG baseURI reqURL fuel (lexHTML content)
  else if mimetype = "text/css" then scanCSS baseURI reqURL (lexCSS false content)
  else if mimetype = "image/svg+xml" then scanSVG lexCSS baseURI reqURL "" false (lexSVG content)
  else ([], false)

/-- The child scans spawned from one accepted URI (`src/parse.go:623-644`):
open the resource (a failed open or URL parse silently ends the branch),
scan it against a document address made of the URI and the configured host,
and recurse on every URI that child scan accepts. Child failures are
swallowed, but the URIs a child emitted before failing were already sent. -/
def scanTree (lexHTML : String → List HToken) (lexCSS : Bool → String → List CSSItem)
    (lexSVG : String → List SToken) (l : LookupM) : Nat → String → List String
  | 0, _ => []
  | f + 1, uri =>
    match l.opener with
    | none => []
    | some op =>
      match op uri with
      | none => []
      | some cm =>
        match urlParse uri with
        | none => []
        | some u0 =>
          let reqURL : GoURL := { u0 with host := l.host }
          let us := (parseDoc lexHTML lexCSS lexSVG l.baseURI reqURL f cm.1 cm.2).1
          us ++ us.flatMap (scanTree lexHTML lexCSS lexSVG l f)

/-- A whole scan: the root document's accepted URIs plus, when an opener is
configured, the URIs of every recursively spawned child scan
(`ParseAll`, `src/parse.go:66-99`). -/
def scanAll (lexHTML : String → List HToken) (lexCSS : Bool → String → List CSSItem)
    (lexSVG : String → List SToken) (l : LookupM) (reqURL : GoURL)
    (fuel : Nat) (content mimetype : String) : List String :=
  let us := (parseDoc lexHTML lexCSS lexSVG l.baseURI reqURL fuel content mimetype).1
  us ++ (match l.opener with
    | none => []
    | some _ => us.flatMap (scanTree lexHTML lexCSS lexSVG l fuel))

/-! ## The delivery coordinator (`src/push.go:40-71`) -/

/-- `path.Ext`: the suffix beginning at the final dot of the final
slash-separated element, empty when there is none. -/
def goPathExt (p : String) : String :=
  go p.data.reverse []
where
  go : List Char → List Char → String
    | [], _ => ""
    | c :: rest, acc =>
      if c = '/' then ""
      else if c = '.' then String.mk ('.' :: acc)
      else go rest (c :: acc)

/-- The `ExtToMimetype` map (`src/parse.go:25-30`). -/
def extToMimetype (ext : String) : Option String :=
  if ext = "" then some "text/html"
  else if ext = ".html" then some "text/html"
  else if ext = ".css" then some "text/css"
  else if ext = ".svg" then some "image/svg+xml"
  else none

/-- Setup outcome of `(*Parser).ResponseWriter` (`src/push.go:40-54`):
the three distinguished error conditions, or a scanning pipeline. -/
inductive RWOutcome where
  | errNoPusher
  | errRecursivePush
  | errNoParser
  | pipeline
deriving DecidableEq, Repr

/-- The setup decision of `(*Parser).ResponseWriter` (`src/push.go:40-54`),
in the code's order: push-capability check, then the `X-Pushed` marker,
then the extension/mimetype gate. `xPushed` is `r.Header.Get("X-Pushed")`. -/
def responseWriterSetup (isPusher : Bool) (xPushed requestURI : String) : RWOutcome :=
  if ¬ isPusher then .errNoPusher
  else if xPushed = "1" then .errRecursivePush
  else
    match extToMimetype (goPathExt requestURI) with
    | none => .errNoParser
    | some _ => .pipeline

/-- The scan-derived push attempts a request produces: the scan's URIs when
a pipeline is constructed, none otherwise (`src/push.go:56-70`). -/
def rwPushes (isPusher : Bool) (xPushed requestURI : String) (scanUris : List String) :
    List String :=
  match responseWriterSetup isPusher xPushed requestURI with
  | .pipeline => scanUris
  | _ => []

/-! ## The push loop (`src/push.go:83-103`) -/

/-- The delivery loop of `(*Parser).Push` (`src/push.go:91-97`): push every
URI from the channel; `err` keeps only the first non-nil delivery error.
Returns the delivered URIs and the final `err`. -/
def pushLoop (pushRes : String → Option E) : List String → Option E → List String × Option E
  | [], err => ([], err)
  | uri :: rest, err =>
    let pushErr := pushRes uri
    let err2 := match err with
      | some e => some e
      | none => pushErr
    let (del, e) := pushLoop pushRes rest err2
    (uri :: del, e)

/-- `(*Parser).Push` (`src/push.go:83-103`): run the delivery loop over the
scan's URIs, then return the scan's own parse error if any, else the first
delivery error. -/
def pushModel (pushRes : String → Option E) (uris : List String) (parseErr : Option E) :
    List String × Option E :=
  let (del, err) := pushLoop pushRes uris none
  (del, match parseErr with
    | some pe => some pe
    | none => err)

/-! ## The streaming pipeline (`src/push.go:19-80`)

The concurrency of `ResponseWriter`/`pipedResponseWriter` is modelled by a
transition system. `outcome` is the value `p.Push` returns for this scan
(`pushModel`'s error component). The state tracks the outstanding recursive
child tasks of the scan's wait group, whether the root scan call has
returned, the recorded error slot, the scan goroutine's `wg.Done`, and the
`Close` call on the pipeline. -/

structure PipeState (E : Type) where
  children : Nat
  scanDone : Bool
  errVal : Option E
  goroutineDone : Bool
  closeCalled : Bool
  closeRet : Option (Option E)
deriving DecidableEq, Repr

/-- The initial pipeline state, as built at `src/push.go:58-60`. -/
def initPipe (E : Type) : PipeState E :=
  { children := 0, scanDone := false, errVal := none,
    goroutineDone := false, closeCalled := false, closeRet := none }

/-- One scheduler step of the pipeline. Each rule mirrors a code event:
* `spawnChild` — `wg.Add(1)` in the recursive uriParser (`src/parse.go:82`),
  possible only while some scan of the tree is running (the root before
  `ParseAll` returns, or a child);
* `childDone` — `wg.Done()` of a finished child (`src/parse.go:84`);
* `scanReturn` — `p.Push` returns (`src/push.go:63`): only after
  `ParseAll`'s deferred `wg.Wait()` (`src/parse.go:75`), i.e. no outstanding
  children; records the scan outcome in the error slot (`src/push.go:65`);
* `goroutineFinish` — the goroutine's `wg.Done()` (`src/push.go:68`), after
  the scan returned;
* `closeCall` — `Close` runs `pw.Close()` (`src/push.go:32`);
* `closeReturn` — `Close`'s `wg.Wait()` unblocks (`src/push.go:33`), which
  requires the goroutine to have finished, and `w.err` is returned. -/
inductive PipeStep (E : Type) (outcome : Option E) : PipeState E → PipeState E → Prop
  | spawnChild (s : PipeState E) (h : s.scanDone = false ∨ 0 < s.children) :
      PipeStep E outcome s { s with children := s.children + 1 }
  | childDone (s : PipeState E) (h : 0 < s.children) :
      PipeStep E outcome s { s with children := s.children - 1 }
  | scanReturn (s : PipeState E) (hc : s.children = 0) (hd : s.scanDone = false) :
      PipeStep E outcome s { s with scanDone := true, errVal := outcome }
  | goroutineFinish (s : PipeState E) (hd : s.scanDone = true) (hg : s.goroutineDone = false) :
      PipeStep E outcome s { s with goroutineDone := true }
  | closeCall (s : PipeState E) (h : s.closeCalled = false) :
      PipeStep E outcome s { s with closeCalled := true }
  | closeReturn (s : PipeState E) (hc : s.closeCalled = true) (hg : s.goroutineDone = true)
      (hr : s.closeRet = none) :
      PipeStep E outcome s { s with closeRet := some s.errVal }

/-- Reachability from the initial state. -/
def PipeReach (E : Type) (outcome : Option E) : PipeState E → Prop :=
  Relation.ReflTransGen (PipeStep E outcome) (initPipe E)

/-! ## The tee/drain byte path (`src/push.go:58-80`)

Bytes written to the pipeline arrive in chunks; the scan side reads them
through `io.TeeReader(pr, w)` so every chunk read is forwarded to the
downstream writer `w`. `scanReads` is the number of chunks the scan consumed
before returning. -/

/-- `drainReader` (`src/push.go:73-80`): keep reading (through the tee, so
each chunk is still forwarded downstream) until the reader errors; the read
data is discarded on the scan side. Returns the chunks forwarded. -/
def drainLog : List (List Nat) → List (List Nat)
  | [] => []
  | c :: rest => c :: drainLog rest

/-- What the downstream writer receives (`src/push.go:61-69`): the chunks the
scan read through the tee, and — when the scan failed — the remaining chunks
forwarded by `drainReader`; a successful scan consumed the whole stream. -/
def pipelineDownstream (chunks : List (List Nat)) (scanReads : Nat) (scanFailed : Bool) :
    List (List Nat) :=
  chunks.take scanReads ++ (if scanFailed then drainLog (chunks.drop scanReads) else [])

/-! ## The final-version URL resolver exercised by `TestURLParser`

The test `src/parse_test.go:11-48` drives `NewParser(baseURL, opener,
uriHandler)` / `parseURL(raw, reqURL)`, whose source file is not part of
the snapshot (only older resolver generations are). -/

/-- Modelled from the spec: the Base Scope "a configured path prefix (and
implicitly a host, carried in Document Address)" (§3) is split into that
host and path prefix: a leading non-`/` component is the host. -/
def splitBaseScope (b : String) : String × String :=
  if b = "" ∨ b.data.head? = some '/' then ("", b)
  else (String.mk (b.data.takeWhile (fun c => c ≠ '/')),
        String.mk (b.data.dropWhile (fun c => c ≠ '/')))

/-- Modelled from the spec: §4.2 `resolve(raw, documentAddress, baseScope)`,
for the final-version resolver missing from the snapshot. Parse `raw`; a
non-empty host differing from the Document Address's host rejects; otherwise
resolve against the Document Address and accept exactly when the resolved
path starts with the Base Scope's path prefix. `none` = resolver error,
`some none` = rejected (no error, no sink call), `some (some p)` = accepted. -/
def resolveSpec (baseScope docAddr raw : String) : Option (Option String) :=
  let scopeHost := (splitBaseScope baseScope).1
  let scopePath := (splitBaseScope baseScope).2
  match urlParse raw with
  | none => none
  | some refURL =>
    if refURL.host ≠ "" ∧ refURL.host ≠ scopeHost then some none
    else
      let docURL : GoURL := ⟨"", scopeHost, docAddr⟩
      let resolved := resolveReference docURL refURL
      if strHasPre resolved.path scopePath then some (some resolved.path) else some none


/-! # Theorems -/

/-! ## Helper lemmas -/

/-- Sequencing success means both parts succeeded and emissions append. -/
theorem comb_eq_true (a b : List String × Bool) (h : (comb a b).2 = true) :
    a.2 = true ∧ b.2 = true ∧ (comb a b).1 = a.1 ++ b.1 := by
  obtain ⟨us, ok⟩ := a
  cases ok with
  | false => simp [comb] at h
  | true => exact ⟨rfl, h, rfl⟩

/-- An accepted resolver result always carries the base-scope guard. -/
theorem parseURLres_accept (baseURI : String) (reqURL : GoURL) (raw u : String)
    (h : parseURLres baseURI reqURL raw = some (some u)) :
    strHasPre u baseURI = true := by
  unfold parseURLres at h
  rcases hp : urlParse raw with _ | r
  · rw [hp] at h; simp at h
  · rw [hp] at h
    simp only at h
    split at h
    · simp at h
    · split at h
      · rename_i hg
        simp only [Option.some.injEq] at h
        exact h ▸ hg
      · simp at h

/-- A successful `resolveEmitList` run emits exactly the accepted references. -/
theorem resolveEmitList_eq_filterMap (baseURI : String) (reqURL : GoURL) :
    ∀ l : List String, (resolveEmitList baseURI reqURL l).2 = true →
      (resolveEmitList baseURI reqURL l).1 = l.filterMap (acceptOf baseURI reqURL) := by
  intro l
  induction l with
  | nil => intro _; rfl
  | cons raw rest ih =>
    intro h
    rcases hp : parseURLres baseURI reqURL raw with _ | o
    · simp [resolveEmitList, hp] at h
    · cases o with
      | none =>
        simp only [resolveEmitList, hp] at h ⊢
        rw [ih h, List.filterMap_cons]
        simp [acceptOf, hp]
      | some u =>
        simp only [resolveEmitList, hp] at h ⊢
        rw [List.filterMap_cons]
        simp only [acceptOf, hp]
        rw [ih h]

/-- Every URI emitted by `resolveEmitList` carries the base-scope guard. -/
theorem resolveEmitList_pre (baseURI : String) (reqURL : GoURL) :
    ∀ l : List String, ∀ u ∈ (resolveEmitList baseURI reqURL l).1,
      strHasPre u baseURI = true := by
  intro l
  induction l with
  | nil => intro u hu; simp [resolveEmitList] at hu
  | cons raw rest ih =>
    intro u hu
    rcases hp : parseURLres baseURI reqURL raw with _ | o
    · simp [resolveEmitList, hp] at hu
    · cases o with
      | none =>
        simp only [resolveEmitList, hp] at hu
        exact ih u hu
      | some v =>
        simp only [resolveEmitList, hp] at hu
        rcases List.mem_cons.mp hu with h | h
        · exact h ▸ parseURLres_accept baseURI reqURL raw v hp
        · exact ih u h


/-! ## Claim C2 — the resolution table -/

/-- C2: the URL resolver produces exactly the spec's resolution-table
outcomes on all six rows; rejection is `some none` (no sink call, no error). -/
theorem c2_resolution_table :
    resolveSpec "example.com/" "/index.html" "http://example.com/header.jpg" =
      some (some "/header.jpg") ∧
    resolveSpec "example.com/" "/index.html" "//example.com/header.jpg" =
      some (some "/header.jpg") ∧
    resolveSpec "example.com/" "/index.html" "header.jpg" = some (some "/header.jpg") ∧
    resolveSpec "www.example.com/" "/index.html" "http://example.com/header.jpg" = some none ∧
    resolveSpec "example.com/dir/" "/index.html" "http://example.com/header.jpg" = some none ∧
    resolveSpec "example.com/" "/dir/index.html" "header.jpg" = some (some "/dir/header.jpg") := by
  refine ⟨?_, ?_, ?_, ?_, ?_, ?_⟩ <;> rfl

/-! ## Claim C4 — loop prevention in the delivery coordinator -/

/-- C4 counterexample: a request that carries the recursive-push marker but
whose writer lacks push capability is answered with `ErrNoPusher`, not the
"recursive push" condition — the loop-prevention check is not first. -/
theorem c4_counterexample :
    responseWriterSetup false "1" "/index.html" = RWOutcome.errNoPusher ∧
    RWOutcome.errNoPusher ≠ RWOutcome.errRecursivePush := by
  exact ⟨rfl, by simp⟩

/-- C4 amended: for every marker-carrying request whose writer does support
push, the coordinator reports the "recursive push" condition (before the
mimetype gate) and makes zero scan-derived push attempts; the loop check
follows the push-capability check rather than preceding it. -/
theorem c4_amended (requestURI : String) (scanUris : List String) :
    responseWriterSetup true "1" requestURI = RWOutcome.errRecursivePush ∧
    rwPushes true "1" requestURI scanUris = [] := by
  refine ⟨rfl, ?_⟩
  simp [rwPushes, responseWriterSetup]

/-! ## Claim C6 — the tee/drain byte path -/

/-- Draining forwards every remaining chunk. -/
theorem drainLog_eq (l : List (List Nat)) : drainLog l = l := by
  induction l with
  | nil => rfl
  | cons c rest ih => simp [drainLog, ih]

/-- C6: the downstream sink receives exactly the written chunks, in order,
whether or not the scan failed — on failure the drain pass forwards the
remainder (a successful scan consumed the whole stream). -/
theorem c6_downstream (chunks : List (List Nat)) (scanReads : Nat) (scanFailed : Bool)
    (h : scanFailed = false → scanReads = chunks.length) :
    pipelineDownstream chunks scanReads scanFailed = chunks := by
  unfold pipelineDownstream
  cases scanFailed with
  | true => rw [if_pos rfl, drainLog_eq, List.take_append_drop]
  | false =>
    rw [if_neg (by simp), h rfl, List.take_length, List.append_nil]

/-- C6 witness: a scan that failed after one of two chunks still yields the
whole stream downstream. -/
theorem c6_downstream_witness :
    (true = false → 1 = [[1], [2, 3]].length) ∧
    pipelineDownstream [[1], [2, 3]] 1 true = [[1], [2, 3]] :=
  ⟨by simp, c6_downstream [[1], [2, 3]] 1 true (by simp)⟩

/-! ## Claim C7 — the push delivery loop -/

/-- The loop delivers every URI; an already-recorded error is kept. -/
theorem pushLoop_eq {E : Type} (pushRes : String → Option E) :
    ∀ (l : List String) (e : E), pushLoop pushRes l (some e) = (l, some e) := by
  intro l
  induction l with
  | nil => intro e; rfl
  | cons uri rest ih => intro e; simp [pushLoop, ih]

/-- Starting with no recorded error, the loop delivers every URI and records
the first delivery error. -/
theorem pushLoop_none_eq {E : Type} (pushRes : String → Option E) :
    ∀ l : List String, pushLoop pushRes l none = (l, (l.filterMap pushRes).head?) := by
  intro l
  induction l with
  | nil => rfl
  | cons uri rest ih =>
    rcases hp : pushRes uri with _ | e
    · simp [pushLoop, hp, ih]
    · simp [pushLoop, hp, pushLoop_eq]

/-- C7: a delivery error does not abort the loop — every discovered URI is
delivered; only the first delivery error is retained; and the value Push
returns is the scan's parse error if any, else that first delivery error,
else nil. -/
theorem c7_push_deliveries {E : Type} (pushRes : String → Option E) (uris : List String)
    (parseErr : Option E) :
    pushModel pushRes uris parseErr =
      (uris, match parseErr with
        | some pe => some pe
        | none => (uris.filterMap pushRes).head?) := by
  unfold pushModel
  rw [pushLoop_none_eq]
  rfl


/-! ## Claim C9 — `data:` URLs in CSS -/

/-- C9 counterexample: the empty `url()` token — whose quote-stripped value
is the empty string and does not start with `data:` — is nevertheless never
passed to the Resolver (the scanner requires `len(Data) > 5`). -/
theorem c9_counterexample :
    cssResolverCalls [CSSItem.declItem [CSSVal.urlTok "url()"]] = [] ∧
    claimCSSCalls [CSSItem.declItem [CSSVal.urlTok "url()"]] = [""] ∧
    strHasPre "" "data:" = false :=
  ⟨rfl, rfl, rfl⟩

/-- No string the CSS scanner passes to the resolver starts with `data:`. -/
theorem cssResolverCalls_no_data (items : List CSSItem) (u : String)
    (hu : u ∈ cssResolverCalls items) : strHasPre u "data:" = false := by
  unfold cssResolverCalls at hu
  rw [List.mem_flatMap] at hu
  obtain ⟨it, _, hu⟩ := hu
  cases it with
  | otherItem => simp at hu
  | declItem vals =>
    simp only at hu
    rw [List.mem_flatMap] at hu
    obtain ⟨v, _, hu⟩ := hu
    cases v with
    | otherTok => simp at hu
    | urlTok data =>
      simp only at hu
      split at hu
      · split at hu
        · simp at hu
        · rename_i hguard
          rw [List.mem_singleton] at hu
          subst hu
          simpa using hguard
      · simp at hu

/-- The CSS scanner's resolver calls equal the amended description. -/
theorem cssResolverCalls_eq_ref (items : List CSSItem) :
    cssResolverCalls items = refCSSCalls items := by
  unfold cssResolverCalls refCSSCalls urlTokensOf
  induction items with
  | nil => rfl
  | cons it rest ih =>
    cases it with
    | otherItem => simpa using ih
    | declItem vals =>
      simp only [List.flatMap_cons, List.filterMap_append]
      rw [ih]
      congr 1
      induction vals with
      | nil => rfl
      | cons v vrest vih =>
        cases v with
        | otherTok => simpa using vih
        | urlTok d =>
          simp only [List.flatMap_cons, List.filterMap_cons]
          by_cases hlen : d.data.length > 5
          · by_cases hpre : strHasPre (String.mk (cssURLVal d.data)) "data:" = true
            · simp only [hlen, hpre, if_true]
              simpa using vih
            · rw [eq_false_of_ne_true hpre] at *
              simp only [hlen, if_true, if_false]
              simpa using vih
          · simp only [hlen, if_false]
            simpa using vih

/-- C9 amended: a `url(...)` value whose quote-stripped form starts with
`data:` is never passed to the Resolver, and the set of values passed is
exactly the amended description `refCSSCalls`: every `url(...)` token with
nonempty parenthesized content, quote-stripped, that is not `data:`-prefixed
(the empty `url()` is skipped). -/
theorem c9_amended (items : List CSSItem) :
    (∀ u ∈ cssResolverCalls items, strHasPre u "data:" = false) ∧
    cssResolverCalls items = refCSSCalls items :=
  ⟨fun u hu => cssResolverCalls_no_data items u hu, cssResolverCalls_eq_ref items⟩

/-- C9 amended, witness at a concrete stream: `url(/a)` is passed (and is not
`data:`-prefixed), `url(data:x)` is not. -/
theorem c9_amended_witness :
    strHasPre "/a" "data:" = false ∧
    cssResolverCalls
        [CSSItem.declItem [CSSVal.urlTok "url(/a)", CSSVal.urlTok "url(data:x)"]] =
      refCSSCalls
        [CSSItem.declItem [CSSVal.urlTok "url(/a)", CSSVal.urlTok "url(data:x)"]] :=
  ⟨(c9_amended [CSSItem.declItem [CSSVal.urlTok "url(/a)", CSSVal.urlTok "url(data:x)"]]).1
      "/a" (by decide),
    (c9_amended [CSSItem.declItem [CSSVal.urlTok "url(/a)", CSSVal.urlTok "url(data:x)"]]).2⟩


/-! ## Claim C10 — the empty reference accepts the document itself -/

/-- Resolving the empty reference reduces to the base-scope test on the
normalized document path: the empty string parses without error (empty
host, so the host check passes) and relative resolution returns the
document's own path. -/
theorem parseURLres_empty (baseURI : String) (rq : GoURL) :
    parseURLres baseURI rq "" =
      if strHasPre (resolvePath rq.path "") baseURI then some (some (resolvePath rq.path ""))
      else some none := rfl

/-- C10: for a document whose (already normalized) address lies inside the
base scope, an empty URL-bearing attribute value resolves to the document's
own path and is passed to the sink: scanning `<img src="">` accepts the
referring document itself. -/
theorem c10_empty_reference (lexHTML : String → List HToken)
    (lexCSS : Bool → String → List CSSItem) (lexSVG : String → List SToken)
    (baseURI : String) (reqURL : GoURL)
    (hnorm : resolvePath reqURL.path "" = reqURL.path)
    (hscope : strHasPre reqURL.path baseURI = true) :
    parseURLres baseURI reqURL "" = some (some reqURL.path) ∧
    scanHTMLDoc lexHTML lexCSS lexSVG baseURI reqURL 1
      [HToken.startTag "img", HToken.attrTok "src" "\"\"", HToken.startTagClose] =
      ([reqURL.path], true) := by
  have hres : parseURLres baseURI reqURL "" = some (some reqURL.path) := by
    rw [parseURLres_empty, hnorm, if_pos hscope]
  refine ⟨hres, ?_⟩
  have hstrip : stripAttrVal "\"\"" = "" := rfl
  simp only [scanHTMLDoc, scanHTML, scanHTMLAux, hstrip, comb]
  rw [hres]
  simp [comb]

/-- C10 witness: `/index.html` inside base scope `/` accepts itself on an
empty `src`. -/
theorem c10_empty_reference_witness :
    resolvePath "/index.html" "" = "/index.html" ∧
    strHasPre "/index.html" "/" = true ∧
    scanHTMLDoc (fun _ => []) (fun _ _ => []) (fun _ => []) "/"
        ⟨"", "example.com", "/index.html"⟩ 1
        [HToken.startTag "img", HToken.attrTok "src" "\"\"", HToken.startTagClose] =
      (["/index.html"], true) :=
  ⟨rfl, rfl,
    (c10_empty_reference (fun _ => []) (fun _ _ => []) (fun _ => []) "/"
      ⟨"", "example.com", "/index.html"⟩ rfl rfl).2⟩


/-! ## Claim C8 — the srcset candidate parser -/

/-- `rtrimWS` is Mathlib's right-drop of whitespace. -/
theorem rtrimWS_eq_rdropWhile (l : List Char) : rtrimWS l = List.rdropWhile isWS l := rfl

/-- Appending an element that fails the predicate does not change `takeWhile`. -/
theorem takeWhile_append_singleton (p : Char → Bool) (x : Char) (hx : p x = false) :
    ∀ l : List Char, (l ++ [x]).takeWhile p = l.takeWhile p := by
  intro l
  induction l with
  | nil => simp [List.takeWhile, hx]
  | cons a as ih =>
    cases ha : p a with
    | true => simp [List.takeWhile_cons, ha, ih]
    | false => simp [List.takeWhile_cons, ha]

/-- Trimming trailing whitespace does not change the leading
non-whitespace run. -/
theorem takeWhile_rtrimWS (l : List Char) :
    (rtrimWS l).takeWhile (fun ch => ¬ isWS ch) = l.takeWhile (fun ch => ¬ isWS ch) := by
  rw [rtrimWS_eq_rdropWhile]
  induction l using List.reverseRecOn with
  | nil => rfl
  | append_singleton init x ih =>
    cases hx : isWS x with
    | true =>
      rw [List.rdropWhile_concat_pos isWS init x hx, ih,
        takeWhile_append_singleton _ x (by simp [hx])]
    | false =>
      rw [List.rdropWhile_concat_neg isWS init x (by simp [hx])]

/-- The candidate slice of the code equals the leading non-whitespace run of
the leading-whitespace-dropped candidate. -/
theorem parseSrcsetCandidate_eq_dropWhile (c : List Char) :
    parseSrcsetCandidate c = (c.dropWhile isWS).takeWhile (fun ch => ¬ isWS ch) := by
  induction c with
  | nil => rfl
  | cons a as ih =>
    cases ha : isWS a with
    | true => rw [parseSrcsetCandidate, if_pos ha, ih, List.dropWhile_cons_of_pos ha]
    | false =>
      rw [parseSrcsetCandidate, if_neg (by simp [ha]), List.dropWhile_cons_of_neg (by simp [ha])]

/-- C8: the srcset parser equals the reference definition — split on commas,
trim each candidate, take its leading whitespace-delimited token. -/
theorem c8_srcset (b : List Char) : parseSrcset b = refSrcset b := by
  unfold parseSrcset refSrcset
  refine List.map_congr_left ?_
  intro c _
  have : parseSrcsetCandidate c = (trimWS c).takeWhile (fun ch => ¬ isWS ch) := by
    rw [trimWS, takeWhile_rtrimWS, parseSrcsetCandidate_eq_dropWhile]
  rw [this]


/-! ## Claim C5 — the pipeline close barrier -/

/-- Invariant of every reachable pipeline state: once the scan has returned
there are no outstanding children and the error slot holds the scan outcome;
the goroutine finishes only after the scan returned; and a returned close
carries the outcome and happened after the goroutine finished. -/
theorem pipeReach_inv {E : Type} (outcome : Option E) (s : PipeState E)
    (h : PipeReach E outcome s) :
    (s.scanDone = true → s.children = 0 ∧ s.errVal = outcome) ∧
    (s.goroutineDone = true → s.scanDone = true) ∧
    (∀ v, s.closeRet = some v → s.goroutineDone = true ∧ v = outcome) := by
  induction h with
  | refl => simp [initPipe]
  | tail hreach step ih =>
    obtain ⟨i1, i2, i3⟩ := ih
    cases step with
    | spawnChild hS =>
      refine ⟨?_, i2, i3⟩
      intro hd
      simp only at hd
      rcases hS with hS | hS
      · rw [hd] at hS; cases hS
      · obtain ⟨hc, _⟩ := i1 hd
        omega
    | childDone hS =>
      refine ⟨?_, i2, i3⟩
      intro hd
      simp only at hd
      obtain ⟨hc, _⟩ := i1 hd
      omega
    | scanReturn hc hd =>
      exact ⟨fun _ => ⟨hc, rfl⟩, fun _ => rfl, i3⟩
    | goroutineFinish hd hg =>
      exact ⟨i1, fun _ => hd, fun v hv => ⟨rfl, (i3 v hv).2⟩⟩
    | closeCall hS =>
      exact ⟨i1, i2, i3⟩
    | closeReturn hc hg hr =>
      refine ⟨i1, i2, ?_⟩
      intro v hv
      simp only [Option.some.injEq] at hv
      refine ⟨hg, ?_⟩
      rw [← hv]
      exact (i1 (i2 hg)).2

/-- C5: the pipeline's blocking close never returns before the whole scan
tree (root scan plus all spawned children) has completed, and it returns
exactly the scan's recorded outcome — the first failure if the scan failed,
nil on a clean end-of-stream. -/
theorem c5_close_barrier {E : Type} (outcome : Option E) (s : PipeState E) (v : Option E)
    (hreach : PipeReach E outcome s) (hret : s.closeRet = some v) :
    s.scanDone = true ∧ s.children = 0 ∧ v = outcome := by
  obtain ⟨i1, i2, i3⟩ := pipeReach_inv outcome s hreach
  obtain ⟨hg, hv⟩ := i3 v hret
  exact ⟨i2 hg, (i1 (i2 hg)).1, hv⟩

/-- C5 witness: a concrete run — scan returns with outcome `some 5`, the
goroutine finishes, close is called and returns — satisfies the barrier
property. -/
theorem c5_close_barrier_witness :
    (PipeState.mk 0 true (some 5) true true (some (some 5)) : PipeState Nat).scanDone = true ∧
    (PipeState.mk 0 true (some 5) true true (some (some 5)) : PipeState Nat).children = 0 ∧
    (some 5 : Option Nat) = some 5 := by
  have h1 : PipeStep Nat (some 5) (initPipe Nat)
      (PipeState.mk 0 true (some 5) false false none) :=
    PipeStep.scanReturn (initPipe Nat) rfl rfl
  have h2 : PipeStep Nat (some 5) (PipeState.mk 0 true (some 5) false false none)
      (PipeState.mk 0 true (some 5) true false none) :=
    PipeStep.goroutineFinish _ rfl rfl
  have h3 : PipeStep Nat (some 5) (PipeState.mk 0 true (some 5) true false none)
      (PipeState.mk 0 true (some 5) true true none) :=
    PipeStep.closeCall _ rfl
  have h4 : PipeStep Nat (some 5) (PipeState.mk 0 true (some 5) true true none)
      (PipeState.mk 0 true (some 5) true true (some (some 5))) :=
    PipeStep.closeReturn _ rfl rfl rfl
  have hr : PipeReach Nat (some 5) (PipeState.mk 0 true (some 5) true true (some (some 5))) :=
    Relation.ReflTransGen.tail (Relation.ReflTransGen.tail
      (Relation.ReflTransGen.tail (Relation.ReflTransGen.tail Relation.ReflTransGen.refl h1)
        h2) h3) h4
  exact c5_close_barrier (some 5) _ (some 5) hr rfl

/-! ## Claim C3 — the base-scope invariant, across the recursion tree -/

/-- Emissions of a `comb` come from one of its parts. -/
theorem comb_mem (a b : List String × Bool) (u : String) (hu : u ∈ (comb a b).1) :
    u ∈ a.1 ∨ u ∈ b.1 := by
  obtain ⟨us, ok⟩ := a
  cases ok with
  | false => exact Or.inl hu
  | true => simpa [comb] using List.mem_append.mp hu

/-- Every URI the CSS scanner emits carries the base-scope guard. -/
theorem scanCSS_pre (baseURI : String) (reqURL : GoURL) (items : List CSSItem) :
    ∀ u ∈ (scanCSS baseURI reqURL items).1, strHasPre u baseURI = true :=
  fun u hu => resolveEmitList_pre baseURI reqURL _ u hu

/-- Every URI the SVG scanner emits carries the base-scope guard. -/
theorem scanSVG_pre (lexCSS : Bool → String → List CSSItem) (baseURI : String) (reqURL : GoURL) :
    ∀ (toks : List SToken) (tag : String) (m : Bool),
      ∀ u ∈ (scanSVG lexCSS baseURI reqURL tag m toks).1, strHasPre u baseURI = true := by
  intro toks
  induction toks with
  | nil =>
    intro tag m u hu
    cases m <;> simp [scanSVG] at hu
  | cons tok rest ih =>
    intro tag m u hu
    cases m with
    | false =>
      cases tok with
      | startTag n => exact ih n true u hu
      | attrTok k v => exact ih tag false u hu
      | startTagClose => exact ih tag false u hu
      | endTag n => exact ih tag false u hu
      | errTok e => simp [scanSVG] at hu
      | textTok d =>
        by_cases htag : tag = "style"
        · rw [scanSVG, if_pos htag] at hu
          rcases comb_mem _ _ u hu with h | h
          · exact scanCSS_pre baseURI reqURL _ u h
          · exact ih tag false u h
        · rw [scanSVG, if_neg htag] at hu
          exact ih tag false u hu
    | true =>
      cases tok with
      | startTag n => exact ih tag false u hu
      | startTagClose => exact ih tag false u hu
      | endTag n => exact ih tag false u hu
      | textTok d => exact ih tag false u hu
      | errTok e => simp [scanSVG] at hu
      | attrTok key val =>
        rw [scanSVG] at hu
        rcases comb_mem _ _ u hu with h | h
        · split at h
          · split at h
            · exact scanCSS_pre baseURI reqURL _ u h
            · rcases hp : parseURLres baseURI reqURL (stripSVGAttrVal val) with _ | o
              · rw [hp] at h; simp at h
              · rw [hp] at h
                cases o with
                | none => simp at h
                | some w =>
                  simp only [List.mem_singleton] at h
                  exact h ▸ parseURLres_accept baseURI reqURL _ w hp
          · simp at h
        · exact ih tag true u h


/-- Every URI the HTML scanner emits carries the base-scope guard, provided
the nested-iframe continuation does. -/
theorem scanHTMLAux_pre (lexCSS : Bool → String → List CSSItem) (lexSVG : String → List SToken)
    (baseURI : String) (reqURL : GoURL) (nested : String → List String × Bool)
    (hn : ∀ d, ∀ u ∈ (nested d).1, strHasPre u baseURI = true) :
    ∀ (toks : List HToken) (tag : String) (m : Bool),
      ∀ u ∈ (scanHTMLAux lexCSS lexSVG baseURI reqURL nested tag m toks).1,
        strHasPre u baseURI = true := by
  intro toks
  induction toks with
  | nil =>
    intro tag m u hu
    cases m <;> simp [scanHTMLAux] at hu
  | cons tok rest ih =>
    intro tag m u hu
    cases m with
    | false =>
      cases tok with
      | startTag n => exact ih n true u hu
      | attrTok k v => exact ih tag false u hu
      | startTagClose => exact ih tag false u hu
      | endTag n => exact ih tag false u hu
      | errTok e => simp [scanHTMLAux] at hu
      | svgTok d =>
        rw [scanHTMLAux] at hu
        rcases comb_mem _ _ u hu with h | h
        · exact scanSVG_pre lexCSS baseURI reqURL _ "" false u h
        · exact ih tag false u h
      | textTok d =>
        by_cases hst : tag = "style"
        · rw [scanHTMLAux, if_pos hst] at hu
          rcases comb_mem _ _ u hu with h | h
          · exact scanCSS_pre baseURI reqURL _ u h
          · exact ih tag false u h
        · by_cases hif : tag = "iframe"
          · rw [scanHTMLAux, if_neg hst, if_pos hif] at hu
            rcases comb_mem _ _ u hu with h | h
            · exact hn d u h
            · exact ih tag false u h
          · rw [scanHTMLAux, if_neg hst, if_neg hif] at hu
            exact ih tag false u hu
    | true =>
      cases tok with
      | startTag n => exact ih tag false u hu
      | startTagClose => exact ih tag false u hu
      | endTag n => exact ih tag false u hu
      | textTok d => exact ih tag false u hu
      | svgTok d => exact ih tag false u hu
      | errTok e => simp [scanHTMLAux] at hu
      | attrTok key val =>
        rw [scanHTMLAux] at hu
        rcases comb_mem _ _ u hu with h | h
        · split at h
          · split at h
            · exact scanCSS_pre baseURI reqURL _ u h
            · split at h
              · exact resolveEmitList_pre baseURI reqURL _ u h
              · rcases hp : parseURLres baseURI reqURL (stripAttrVal val) with _ | o
                · rw [hp] at h; simp at h
                · rw [hp] at h
                  cases o with
                  | none => simp at h
                  | some w =>
                    simp only [List.mem_singleton] at h
                    exact h ▸ parseURLres_accept baseURI reqURL _ w hp
          · simp at h
        · exact ih tag true u h

/-- `scanHTML` at any fuel keeps the base-scope guard. -/
theorem scanHTML_pre (lexHTML : String → List HToken) (lexCSS : Bool → String → List CSSItem)
    (lexSVG : String → List SToken) (baseURI : String) (reqURL : GoURL) :
    ∀ (fuel : Nat) (tag : String) (m : Bool) (toks : List HToken),
      ∀ u ∈ (scanHTML lexHTML lexCSS lexSVG baseURI reqURL fuel tag m toks).1,
        strHasPre u baseURI = true := by
  intro fuel
  induction fuel with
  | zero => intro tag m toks u hu; simp [scanHTML] at hu
  | succ f ihf =>
    intro tag m toks u hu
    rw [scanHTML] at hu
    exact scanHTMLAux_pre lexCSS lexSVG baseURI reqURL _
      (fun d => ihf "" false (lexHTML d)) toks tag m u hu

/-- Every document scan keeps the base-scope guard, whatever the mimetype. -/
theorem parseDoc_pre (lexHTML : String → List HToken) (lexCSS : Bool → String → List CSSItem)
    (lexSVG : String → List SToken) (baseURI : String) (reqURL : GoURL)
    (fuel : Nat) (content mimetype : String) :
    ∀ u ∈ (parseDoc lexHTML lexCSS lexSVG baseURI reqURL fuel content mimetype).1,
      strHasPre u baseURI = true := by
  intro u hu
  unfold parseDoc at hu
  split at hu
  · exact scanHTML_pre lexHTML lexCSS lexSVG baseURI reqURL fuel "" false _ u hu
  · split at hu
    · exact scanCSS_pre baseURI reqURL _ u hu
    · split at hu
      · exact scanSVG_pre lexCSS baseURI reqURL _ "" false u hu
      · simp at hu

/-- Recursively spawned child scans keep the base-scope guard. -/
theorem scanTree_pre (lexHTML : String → List HToken) (lexCSS : Bool → String → List CSSItem)
    (lexSVG : String → List SToken) (l : LookupM) :
    ∀ (fuel : Nat) (uri : String),
      ∀ u ∈ scanTree lexHTML lexCSS lexSVG l fuel uri, strHasPre u l.baseURI = true := by
  intro fuel
  induction fuel with
  | zero => intro uri u hu; simp [scanTree] at hu
  | succ f ihf =>
    intro uri u hu
    rw [scanTree] at hu
    rcases ho : l.opener with _ | op
    · simp only [ho] at hu; simp at hu
    · simp only [ho] at hu
      rcases hc : op uri with _ | cm
      · simp only [hc] at hu; simp at hu
      · simp only [hc] at hu
        rcases hpu : urlParse uri with _ | u0
        · simp only [hpu] at hu; simp at hu
        · simp only [hpu] at hu
          rcases List.mem_append.mp hu with h | h
          · exact parseDoc_pre lexHTML lexCSS lexSVG l.baseURI _ f cm.1 cm.2 u h
          · rw [List.mem_flatMap] at h
            obtain ⟨w, _, hw⟩ := h
            exact ihf w u hw

/-- C3: every URI any scan of the whole tree — the root scan and all
recursively spawned child scans, over any configuration and document —
passes to the sink starts with the configured base-scope prefix. -/
theorem c3_scope_invariant (lexHTML : String → List HToken)
    (lexCSS : Bool → String → List CSSItem) (lexSVG : String → List SToken)
    (l : LookupM) (reqURL : GoURL) (fuel : Nat) (content mimetype : String) (u : String)
    (hu : u ∈ scanAll lexHTML lexCSS lexSVG l reqURL fuel content mimetype) :
    strHasPre u l.baseURI = true := by
  unfold scanAll at hu
  rcases List.mem_append.mp hu with h | h
  · exact parseDoc_pre lexHTML lexCSS lexSVG l.baseURI reqURL fuel content mimetype u h
  · rcases ho : l.opener with _ | op
    · simp only [ho] at h; simp at h
    · simp only [ho] at h
      simp only [List.mem_flatMap] at h
      obtain ⟨w, _, hw⟩ := h
      exact scanTree_pre lexHTML lexCSS lexSVG l fuel w u hw

/-- C3 witness at a concrete scan: a CSS document emitting `/a` under base
scope `/`. -/
theorem c3_scope_invariant_witness :
    "/a" ∈ scanAll (fun _ => []) (fun _ _ => [CSSItem.declItem [CSSVal.urlTok "url(/a)"]])
        (fun _ => []) (LookupM.mk "example.com" "/" none) ⟨"", "example.com", "/request"⟩
        1 "stylesheet-bytes" "text/css" ∧
    strHasPre "/a" "/" = true :=
  ⟨by decide,
    c3_scope_invariant (fun _ => []) (fun _ _ => [CSSItem.declItem [CSSVal.urlTok "url(/a)"]])
      (fun _ => []) (LookupM.mk "example.com" "/" none) ⟨"", "example.com", "/request"⟩
      1 "stylesheet-bytes" "text/css" "/a" (by decide)⟩


/-! ## Claim C1 — the HTML tag/attribute table -/

/-- The amended table spells out exactly the scanner condition of
`src/parse.go:144`. -/
theorem tableAmended_iff (tag key : String) :
    tableAmended tag key = true ↔
      (key = "style" ∨ key = "src" ∨ key = "srcset" ∨ key = "poster" ∨ key = "data" ∨
        (key = "href" ∧ tag = "link")) := by
  simp only [tableAmended, Bool.or_eq_true, Bool.and_eq_true, beq_iff_eq]
  tauto

/-- On well-formed streams a successful scan emits exactly the spec-side
targets of the constructs of the amended table. -/
theorem scanHTMLAux_wf (lexCSS : Bool → String → List CSSItem) (lexSVG : String → List SToken)
    (baseURI : String) (reqURL : GoURL) (nested : String → List String × Bool) :
    ∀ (toks : List HToken) (tag : String) (m : Bool),
      wfHTML m toks = true →
      (scanHTMLAux lexCSS lexSVG baseURI reqURL nested tag m toks).2 = true →
      (scanHTMLAux lexCSS lexSVG baseURI reqURL nested tag m toks).1 =
        (attrsOf tag toks).flatMap (specOneRef lexCSS tableAmended baseURI reqURL) := by
  intro toks
  induction toks with
  | nil => intro tag m _ _; cases m <;> rfl
  | cons tok rest ih =>
    intro tag m hwf hok
    cases m with
    | false =>
      cases tok with
      | startTag n => exact ih n true hwf hok
      | endTag n => exact ih tag false hwf hok
      | errTok e =>
        cases e with
        | true =>
          have hr : rest = [] := by simpa [wfHTML, List.isEmpty_iff] using hwf
          subst hr
          rfl
        | false => simp [wfHTML] at hwf
      | attrTok k v => simp [wfHTML] at hwf
      | startTagClose => simp [wfHTML] at hwf
      | textTok d => simp [wfHTML] at hwf
      | svgTok d => simp [wfHTML] at hwf
    | true =>
      cases tok with
      | attrTok key val =>
        have hwf2 : wfHTML true rest = true := hwf
        obtain ⟨hstep, hrest, hfst⟩ := comb_eq_true _ _ hok
        simp only [attrsOf, List.flatMap_cons]
        refine Eq.trans hfst ?_
        rw [ih tag true hwf2 hrest]
        congr 1
        by_cases hcond : key = "style" ∨ key = "src" ∨ key = "srcset" ∨ key = "poster" ∨
            key = "data" ∨ (key = "href" ∧ tag = "link")
        · simp only [if_pos hcond] at hstep ⊢
          unfold specOneRef
          rw [if_pos ((tableAmended_iff tag key).mpr hcond)]
          by_cases hsty : key = "style"
          · simp only [if_pos hsty]
          · simp only [if_neg hsty] at hstep ⊢
            by_cases hsrc : key = "srcset"
            · simp only [if_pos hsrc] at hstep ⊢
              exact resolveEmitList_eq_filterMap baseURI reqURL _ hstep
            · simp only [if_neg hsrc] at hstep ⊢
              rcases hp : parseURLres baseURI reqURL (stripAttrVal val) with _ | o
              · rw [hp] at hstep; simp at hstep
              · cases o with
                | none => simp [acceptOf, hp]
                | some w => simp [acceptOf, hp]
        · simp only [if_neg hcond]
          have hta : ¬ (tableAmended (tag, key, val).1 (tag, key, val).2.1 = true) := by
            intro hta
            exact hcond ((tableAmended_iff tag key).mp hta)
          unfold specOneRef
          rw [if_neg hta]
      | startTagClose => exact ih tag false hwf hok
      | errTok e =>
        cases e with
        | true =>
          have hr : rest = [] := by simpa [wfHTML, List.isEmpty_iff] using hwf
          subst hr
          rfl
        | false => simp [wfHTML] at hwf
      | startTag n => simp [wfHTML] at hwf
      | endTag n => simp [wfHTML] at hwf
      | textTok d => simp [wfHTML] at hwf
      | svgTok d => simp [wfHTML] at hwf


/-- C1 counterexample: `<video poster="/p.jpg">` — a tag/attribute
combination outside the spec's table — produces a sink invocation, so the
scan's output is not the set of targets of the table's constructs. -/
theorem c1_counterexample :
    scanHTMLDoc (fun _ => []) (fun _ _ => []) (fun _ => []) "/" ⟨"", "", "/index.html"⟩ 1
        [HToken.startTag "video", HToken.attrTok "poster" "\"/p.jpg\"", HToken.startTagClose] =
      (["/p.jpg"], true) ∧
    specHTMLRefs (fun _ _ => []) tableClaim "/" ⟨"", "", "/index.html"⟩
        [HToken.startTag "video", HToken.attrTok "poster" "\"/p.jpg\"", HToken.startTagClose] =
      [] :=
  ⟨rfl, rfl⟩

/-- C1 amended: for every well-formed HTML token stream scanned without
recursion that completes successfully, the sink receives exactly the
locally-scoped, base-scope-prefixed targets of the amended table's
constructs — `style`, `src`, `srcset`, `poster` and `data` on any element
and `href` on `link` only — and of no other tag/attribute combination. -/
theorem c1_amended (lexHTML : String → List HToken) (lexCSS : Bool → String → List CSSItem)
    (lexSVG : String → List SToken) (baseURI : String) (reqURL : GoURL) (fuel : Nat)
    (toks : List HToken)
    (hwf : wfHTML false toks = true)
    (hok : (scanHTMLDoc lexHTML lexCSS lexSVG baseURI reqURL (fuel + 1) toks).2 = true) :
    (scanHTMLDoc lexHTML lexCSS lexSVG baseURI reqURL (fuel + 1) toks).1 =
      specHTMLRefs lexCSS tableAmended baseURI reqURL toks := by
  unfold scanHTMLDoc scanHTML at hok ⊢
  unfold specHTMLRefs
  exact scanHTMLAux_wf lexCSS lexSVG baseURI reqURL _ toks "" false hwf hok

/-- C1 amended, witness at `<img src="/a">`. -/
theorem c1_amended_witness :
    wfHTML false
        [HToken.startTag "img", HToken.attrTok "src" "\"/a\"", HToken.startTagClose] = true ∧
    (scanHTMLDoc (fun _ => []) (fun _ _ => []) (fun _ => []) "/" ⟨"", "", "/index.html"⟩ 1
        [HToken.startTag "img", HToken.attrTok "src" "\"/a\"", HToken.startTagClose]).2 = true ∧
    (scanHTMLDoc (fun _ => []) (fun _ _ => []) (fun _ => []) "/" ⟨"", "", "/index.html"⟩ 1
        [HToken.startTag "img", HToken.attrTok "src" "\"/a\"", HToken.startTagClose]).1 =
      specHTMLRefs (fun _ _ => []) tableAmended "/" ⟨"", "", "/index.html"⟩
        [HToken.startTag "img", HToken.attrTok "src" "\"/a\"", HToken.startTagClose] :=
  ⟨rfl, rfl,
    c1_amended (fun _ => []) (fun _ _ => []) (fun _ => []) "/" ⟨"", "", "/index.html"⟩ 0
      [HToken.startTag "img", HToken.attrTok "src" "\"/a\"", HToken.startTagClose] rfl rfl⟩

end Push
